import Mathlib

/-!
Verification of the soccer-statistics pipeline in `midterm.py`.

Python strings are embedded as `List Char`, Python ints as `ℤ`, Python
floats as `ℚ` (exact rational arithmetic), Python lists as Lean lists.
Fallible operations (indexing, `int()` parsing, unpacking) return `Option`.
-/

/-- A Python string, embedded as its list of characters. -/
abbrev PyStr := List Char

/-- A player row: a Python list of string fields. -/
abbrev Row := List PyStr

/-- Python `str.upper()`, character-wise upper-casing. -/
def pyUpper (s : PyStr) : PyStr :=
  s.map Char.toUpper

/-- Accumulate the value of a string of decimal digits, most significant first. -/
def digitsToNat : List Char → ℕ → ℕ
  | [], acc => acc
  | c :: cs, acc => digitsToNat cs (acc * 10 + (c.toNat - 48))

/-- Is every character a decimal digit? -/
def allDigits (l : List Char) : Bool :=
  l.all fun c => decide ('0' ≤ c) && decide (c ≤ '9')

/-- Model of Python `int(s)` on a string: an optional sign followed by a
nonempty run of decimal digits parses to the denoted integer; anything else
raises (returns `none`). -/
def pyInt (s : PyStr) : Option ℤ :=
  match s with
  | '-' :: rest =>
      if rest ≠ [] ∧ allDigits rest then some (-(digitsToNat rest 0 : ℤ)) else none
  | '+' :: rest =>
      if rest ≠ [] ∧ allDigits rest then some ((digitsToNat rest 0 : ℤ)) else none
  | _ =>
      if s ≠ [] ∧ allDigits s then some ((digitsToNat s 0 : ℤ)) else none

/-- Python `l[a:b]` for non-negative bounds: drop `a`, then take `b - a`
(indices clamp silently, exactly as in Python). -/
def pySlice (l : List α) (a b : ℕ) : List α :=
  (l.drop a).take (b - a)

/-- Round a rational to the nearest integer, ties to even — the rounding mode
of Python `round`. -/
def py_round_half_even (q : ℚ) : ℤ :=
  if q - ⌊q⌋ < 1/2 then ⌊q⌋
  else if 1/2 < q - ⌊q⌋ then ⌊q⌋ + 1
  else if 2 ∣ ⌊q⌋ then ⌊q⌋ else ⌊q⌋ + 1

/-- Python `round(x, precision)` over exact rationals. -/
def py_round (x : ℚ) (precision : ℤ) : ℚ :=
  (py_round_half_even (x * (10 : ℚ) ^ precision) : ℚ) / (10 : ℚ) ^ precision

/-- Python integer true division `a / b`, raising `ZeroDivisionError` on a
zero divisor. -/
def pyDiv (a b : ℤ) : Except String ℚ :=
  if b = 0 then Except.error "ZeroDivisionError: division by zero"
  else Except.ok ((a : ℚ) / (b : ℚ))

/-- `calculate_shot_conversion_rate` from `midterm.py`: `round(goals / shots,
precision)` inside a `try` block whose `except ZeroDivisionError` handler
returns `0.0`. -/
def calculate_shot_conversion_rate (goals shots : ℤ) (precision : ℤ) : ℚ :=
  match pyDiv goals shots with
  | Except.ok q => py_round q precision
  | Except.error _ => 0

/-- `clean_squad` from `midterm.py`: `(squad[:2].upper(), squad[3:])`. -/
def clean_squad (squad : PyStr) : PyStr × PyStr :=
  (pyUpper (pySlice squad 0 2), squad.drop 3)

/-- `format_player_position` from `midterm.py`: `position.replace(",", "|")`. -/
def format_player_position (position : PyStr) : PyStr :=
  position.map fun c => if c = ',' then '|' else c

/-- The tier classifier of challenge 12 in `main`: a threshold ladder on the
shots-on-target conversion rate, highest threshold first. -/
def efficiency_rating (conv_rate : ℚ) : String :=
  if conv_rate ≥ 0.4 then "Top Tier"
  else if conv_rate ≥ 0.3 then "Upper Middle Tier"
  else if conv_rate ≥ 0.2 then "Lower Middle Tier"
  else "Bottom Tier"

/-- Helper for `list_index`: scan from position `i` for the first occurrence. -/
def list_index_go (x : PyStr) : List PyStr → ℕ → Option ℕ
  | [], _ => none
  | y :: ys, i => if y = x then some i else list_index_go x ys (i + 1)

/-- Python `header.index(fieldName)` as used in `main` (challenges 3.1 and
7.2): the zero-based position of the first occurrence of a value, failing
(Python raises) when the value is absent. -/
def list_index (l : List PyStr) (x : PyStr) : Option ℕ :=
  list_index_go x l 0

/-- `int(player[gls_idx])`: field access followed by integer parsing, failing
on an out-of-range index or a non-integer field. -/
def pyIntAt (p : Row) (i : ℕ) : Option ℤ :=
  p.get? i >>= pyInt

/-- The loop of `get_top_scorer`, carrying the accumulator list and the
running `high_score`. -/
def get_top_scorer_go (gls_idx : ℕ) : List Row → List Row → ℤ → Option (List Row)
  | [], acc, _ => some acc
  | p :: rest, acc, high =>
    match pyIntAt p gls_idx with
    | none => none
    | some goals =>
      if goals > high ∧ goals > 0 then get_top_scorer_go gls_idx rest [p] goals
      else if goals = high ∧ goals > 0 then get_top_scorer_go gls_idx rest (acc ++ [p]) high
      else get_top_scorer_go gls_idx rest acc high

/-- `get_top_scorer` from `midterm.py`: single pass with `top_scorers = []`
and `high_score = 0`. -/
def get_top_scorer (players : List Row) (gls_idx : ℕ) : Option (List Row) :=
  get_top_scorer_go gls_idx players [] 0

/-- The running maximum computed by `get_top_scorer`: the fold of `max` over
the goal counts, seeded with the sentinel `0`. -/
def maxGoals (g : Row → ℤ) (players : List Row) : ℤ :=
  players.foldl (fun m p => max m (g p)) 0

/-- `get_player_shooting_numbers` from `midterm.py` (value level): slice the
row, then convert every field with `int`, failing on a non-integer field. -/
def get_player_shooting_numbers (player : Row) (a b : ℕ) : Option (List ℤ) :=
  (pySlice player a b).mapM pyInt

/-- Python unpacking `g, s, t = lst`: succeeds exactly on three-element
lists. -/
def unpack3 (l : List ℤ) : Option (ℤ × ℤ × ℤ) :=
  match l with
  | [g, s, t] => some (g, s, t)
  | _ => none

/-- One player's shooting triple, as consumed in `get_team_shooting_numbers`
by `goals, shots, shots_on_target = get_player_shooting_numbers(...)`. -/
def playerTriple (p : Row) (a b : ℕ) : Option (ℤ × ℤ × ℤ) :=
  get_player_shooting_numbers p a b >>= unpack3

/-- The accumulating loop of `get_team_shooting_numbers`. -/
def get_team_shooting_numbers_go (a b : ℕ) : List Row → ℤ × ℤ × ℤ → Option (ℤ × ℤ × ℤ)
  | [], acc => some acc
  | p :: rest, (gc, sc, tc) =>
    match playerTriple p a b with
    | none => none
    | some (g, s, t) => get_team_shooting_numbers_go a b rest (gc + g, sc + s, tc + t)

/-- `get_team_shooting_numbers` from `midterm.py`: componentwise sums of the
players' shooting triples, counters initialised to `0`. -/
def get_team_shooting_numbers (team : List Row) (a b : ℕ) : Option (ℤ × ℤ × ℤ) :=
  get_team_shooting_numbers_go a b team (0, 0, 0)

/-- A Python value as stored in a row: a string field, an `int`, or a `float`
(embedded as an exact rational). -/
inductive PyVal
  | vstr : PyStr → PyVal
  | vint : ℤ → PyVal
  | vrat : ℚ → PyVal
deriving DecidableEq

/-- A Python list object: the contents of one row. -/
abbrev Obj := List PyVal

/-- A heap of list objects; an address is an index into the heap.  Used to
model Python aliasing: `player[slice_]` allocates a fresh object. -/
abbrev Heap := List Obj

/-- Python `int(v)` on a row value: parse a string, keep an int, truncate a
float toward zero. -/
def pyIntVal (v : PyVal) : Option ℤ :=
  match v with
  | PyVal.vstr s => pyInt s
  | PyVal.vint z => some z
  | PyVal.vrat q => some (if 0 ≤ q then ⌊q⌋ else ⌈q⌉)

/-- The conversion loop of `get_player_shooting_numbers`, acting on the heap:
`for i in range(len(shooting_numbers)): shooting_numbers[i] = int(...)`.
`addr` is the address of the freshly allocated slice copy, `i` the loop
counter, `n` the remaining iteration count.  Returns the heap at exit
together with a success flag (`false` when `int` raised `ValueError`, with
the heap as it stood at the raise). -/
def psnLoop (addr : ℕ) : ℕ → ℕ → Heap → Heap × Bool
  | _, 0, h => (h, true)
  | i, n + 1, h =>
    match (h.getD addr []).get? i with
    | none => (h, false)
    | some v =>
      match pyIntVal v with
      | none => (h, false)
      | some z => psnLoop addr (i + 1) n (h.set addr ((h.getD addr []).set i (PyVal.vint z)))

/-- `get_player_shooting_numbers` at the heap level: look up the player
object, allocate the slice copy `player[slice_]` as a fresh object at the end
of the heap, run the in-place conversion loop on the copy, and return the
final heap with the copy's address on success. -/
def get_player_shooting_numbers_run (h : Heap) (p : ℕ) (a b : ℕ) : Heap × Option ℕ :=
  match h.get? p with
  | none => (h, none)
  | some player =>
    let sn := pySlice player a b
    let addr := h.length
    let h1 := h ++ [sn]
    let out := psnLoop addr 0 sn.length h1
    (out.1, if out.2 then some addr else none)

/-- A row value read as a string (Python would raise on any other type). -/
def asStr (v : PyVal) : Option PyStr :=
  match v with
  | PyVal.vstr s => some s
  | _ => none

/-- Python `list.insert(i, x)`: the index is clamped into `[0, len]`. -/
def pyListInsert (l : List α) (i : ℕ) (x : α) : List α :=
  l.insertIdx (min i l.length) x

/-- Python `l[i] = x` for a non-negative index: `IndexError` when out of
range. -/
def pySetIdx (l : List α) (i : ℕ) (x : α) : Option (List α) :=
  if i < l.length then some (l.set i x) else none

/-- The challenge-3 body of `main` on one player row: reformat the position
field, split the squad field, insert the country code at `squad_idx`, and
overwrite the shifted squad field with the bare country name. -/
def challenge3_row (pos_idx squad_idx : ℕ) (row : Obj) : Option Obj :=
  (row.get? pos_idx >>= asStr).bind fun pos =>
    let row1 := row.set pos_idx (PyVal.vstr (format_player_position pos))
    (row1.get? squad_idx >>= asStr).bind fun sq =>
      let cs := clean_squad sq
      let row2 := pyListInsert row1 squad_idx (PyVal.vstr cs.1)
      pySetIdx row2 (squad_idx + 1) (PyVal.vstr cs.2)

/-- The challenge-3 header update in `main`:
`headers.insert(squad_idx, "Country_Code")`. -/
def challenge3_header (headers : List PyStr) (squad_idx : ℕ) : List PyStr :=
  pyListInsert headers squad_idx "Country_Code".data

/-- The challenge-10 body of `main` on one player row: parse the shooting
triple and append the two conversion-rate columns. -/
def challenge10_row (a b : ℕ) (row : Obj) : Option Obj :=
  ((pySlice row a b).mapM pyIntVal >>= unpack3).bind fun gst =>
    some (row ++ [PyVal.vrat (calculate_shot_conversion_rate gst.1 gst.2.1 3),
      PyVal.vrat (calculate_shot_conversion_rate gst.1 gst.2.2 3)])

/-- The challenge-10 header update in `main`:
`headers.extend(["shots_conv_rate", "shots_on_target_conv_rate"])`. -/
def challenge10_header (headers : List PyStr) : List PyStr :=
  headers ++ ["shots_conv_rate".data, "shots_on_target_conv_rate".data]

/-- One row of the challenge-11 team table, with the challenge-12 rating
appended: `[country, goals, shots, shots_on_target, shots_conv_rate,
shots_on_target_conv_rate, rating]`. -/
structure TeamRecord where
  country : String
  goals : ℤ
  shots : ℤ
  shots_on_target : ℤ
  shots_conv_rate : ℚ
  shots_on_target_conv_rate : ℚ
  rating : String

/-- The sort key of challenge 12.4: `(-float(x[-2]), x[0])`, i.e. the negated
shots-on-target conversion rate paired with the country name. -/
def sortKey (x : TeamRecord) : ℚ × String :=
  (-x.shots_on_target_conv_rate, x.country)

/-- Lexicographic comparison of sort keys: the "is less or equal" relation
realised by Python `sorted` with the challenge-12.4 key. -/
def rankLE (x y : TeamRecord) : Bool :=
  decide ((sortKey x).1 < (sortKey y).1 ∨
    ((sortKey x).1 = (sortKey y).1 ∧ (sortKey x).2 ≤ (sortKey y).2))

/-- `teams = sorted(teams, key=lambda x: (-float(x[-2]), x[0]))` from
challenge 12.4: Python `sorted` is a stable sort, embedded as a stable merge
sort with respect to `rankLE`. -/
def rankTeams (ts : List TeamRecord) : List TeamRecord :=
  ts.mergeSort rankLE

/-! ## Theorems -/

/-- The rounding step of Python `round` is off by at most one half. -/
theorem abs_py_round_half_even_sub_le (q : ℚ) :
    |(py_round_half_even q : ℚ) - q| ≤ 1/2 := by
  have h0 : ((⌊q⌋ : ℚ)) ≤ q := Int.floor_le q
  have h1 : q < ⌊q⌋ + 1 := Int.lt_floor_add_one q
  unfold py_round_half_even
  split_ifs with hlt hgt hev <;> rw [abs_le] <;> constructor <;> push_cast <;> linarith

/-- C8: on any input consisting of a two-character abbreviation, one
separator character, and a name, `clean_squad` returns the abbreviation
upper-cased paired with the name taken verbatim. -/
theorem clean_squad_spec (ab : PyStr) (sep : Char) (name : PyStr)
    (h : ab.length = 2) :
    clean_squad (ab ++ sep :: name) = (ab.map Char.toUpper, name) := by
  have hdrop : (ab ++ sep :: name).drop 3 = name := by
    have h3 : (ab ++ [sep]).length = 3 := by simp [h]
    rw [show ab ++ sep :: name = (ab ++ [sep]) ++ name by simp]
    exact List.drop_left' h3
  have htake : pySlice (ab ++ sep :: name) 0 2 = ab := by
    simpa [pySlice] using List.take_left' h
  simp [clean_squad, pyUpper, htake, hdrop]

/-- Witness for C8: `clean_squad "ng Nigeria" = ("NG", "Nigeria")`. -/
theorem clean_squad_spec_witness :
    clean_squad (['n', 'g'] ++ ' ' :: ['N', 'i', 'g', 'e', 'r', 'i', 'a']) =
      (['n', 'g'].map Char.toUpper, ['N', 'i', 'g', 'e', 'r', 'i', 'a']) ∧
    ['n', 'g'].map Char.toUpper = ['N', 'G'] :=
  ⟨clean_squad_spec ['n', 'g'] ' ' ['N', 'i', 'g', 'e', 'r', 'i', 'a'] (by decide), by decide⟩

/-- C10: `clean_squad` is total on strings shorter than three characters: the
whole input is upper-cased and the second component is empty. -/
theorem clean_squad_total (s : PyStr) (h : s.length < 3) :
    clean_squad s = (s.map Char.toUpper, []) := by
  have h2 : s.length ≤ 2 := by omega
  have h3 : s.length ≤ 3 := by omega
  simp [clean_squad, pySlice, pyUpper, List.take_of_length_le h2, List.drop_of_length_le h3]

/-- Witness for C10: a two-character input and the empty input. -/
theorem clean_squad_total_witness :
    clean_squad ['z', 'a'] = (['z', 'a'].map Char.toUpper, []) ∧
    clean_squad [] = (List.map Char.toUpper [], []) ∧
    ['z', 'a'].map Char.toUpper = ['Z', 'A'] :=
  ⟨clean_squad_total ['z', 'a'] (by decide), clean_squad_total [] (by decide), by decide⟩

/-- C4: the tier classifier realises the four half-open bands, each boundary
belonging to the higher tier. -/
theorem efficiency_rating_spec (r : ℚ) :
    (efficiency_rating r = "Top Tier" ↔ 0.4 ≤ r) ∧
    (efficiency_rating r = "Upper Middle Tier" ↔ 0.3 ≤ r ∧ r < 0.4) ∧
    (efficiency_rating r = "Lower Middle Tier" ↔ 0.2 ≤ r ∧ r < 0.3) ∧
    (efficiency_rating r = "Bottom Tier" ↔ r < 0.2) ∧
    efficiency_rating 0.4 = "Top Tier" ∧
    efficiency_rating 0.3 = "Upper Middle Tier" ∧
    efficiency_rating 0.2 = "Lower Middle Tier" := by
  refine ⟨?_, ?_, ?_, ?_, by norm_num [efficiency_rating], by norm_num [efficiency_rating],
    by norm_num [efficiency_rating]⟩ <;>
  · unfold efficiency_rating
    split_ifs with h1 h2 h3 <;> simp_all <;> (try intro hh) <;> linarith

/-- C2: `calculate_shot_conversion_rate` is total; it returns `0.0` whenever
`shots = 0` (any `goals`, including the pair `(0, 0)`), and otherwise returns
`goals / shots` rounded to `precision` decimal places: a multiple of
`10 ^ (-precision)` within half a unit in the last place of the true
quotient. -/
theorem calculate_shot_conversion_rate_spec (goals shots precision : ℤ) :
    calculate_shot_conversion_rate goals shots precision =
      (if shots = 0 then 0 else py_round ((goals : ℚ) / (shots : ℚ)) precision) ∧
    calculate_shot_conversion_rate goals 0 precision = 0 ∧
    (shots ≠ 0 →
      |calculate_shot_conversion_rate goals shots precision - (goals : ℚ) / (shots : ℚ)| ≤
        1/2 * (10 : ℚ) ^ (-precision) ∧
      ∃ n : ℤ, calculate_shot_conversion_rate goals shots precision =
        (n : ℚ) * (10 : ℚ) ^ (-precision)) := by
  have hmain : calculate_shot_conversion_rate goals shots precision =
      (if shots = 0 then 0 else py_round ((goals : ℚ) / (shots : ℚ)) precision) := by
    by_cases h : shots = 0 <;> simp [calculate_shot_conversion_rate, pyDiv, h]
  refine ⟨hmain, by simp [calculate_shot_conversion_rate, pyDiv], fun h => ?_⟩
  rw [hmain, if_neg h]
  have hpos : (0 : ℚ) < (10 : ℚ) ^ precision := zpow_pos (by norm_num) _
  constructor
  · have hb := abs_py_round_half_even_sub_le (((goals : ℚ) / (shots : ℚ)) * (10 : ℚ) ^ precision)
    have hrw : py_round ((goals : ℚ) / (shots : ℚ)) precision - (goals : ℚ) / (shots : ℚ) =
        ((py_round_half_even (((goals : ℚ) / (shots : ℚ)) * (10 : ℚ) ^ precision) : ℚ) -
          ((goals : ℚ) / (shots : ℚ)) * (10 : ℚ) ^ precision) / (10 : ℚ) ^ precision := by
      rw [py_round]
      field_simp
      ring
    rw [hrw, abs_div, abs_of_pos hpos, zpow_neg,
      show (1 : ℚ)/2 * ((10 : ℚ) ^ precision)⁻¹ = (1/2) / (10 : ℚ) ^ precision by ring]
    exact (div_le_div_iff_of_pos_right hpos).mpr hb
  · refine ⟨py_round_half_even (((goals : ℚ) / (shots : ℚ)) * (10 : ℚ) ^ precision), ?_⟩
    rw [py_round, zpow_neg, div_eq_mul_inv]

/-- Witness for C2 at `(goals, shots, precision) = (1, 4, 3)`. -/
theorem calculate_shot_conversion_rate_spec_witness :
    (4 : ℤ) ≠ 0 ∧
    (|calculate_shot_conversion_rate 1 4 3 - ((1 : ℤ) : ℚ) / ((4 : ℤ) : ℚ)| ≤
        1/2 * (10 : ℚ) ^ (-(3 : ℤ)) ∧
      ∃ n : ℤ, calculate_shot_conversion_rate 1 4 3 = (n : ℚ) * (10 : ℚ) ^ (-(3 : ℤ))) :=
  ⟨by decide, (calculate_shot_conversion_rate_spec 1 4 3).2.2 (by decide)⟩

/-- Scanning helper lemma for `list_index`: characterisation of the scan
started at offset `i`. -/
theorem list_index_go_spec (x : PyStr) (l : List PyStr) :
    ∀ i : ℕ,
      (x ∉ l → list_index_go x l i = none) ∧
      (x ∈ l → ∃ j, list_index_go x l i = some (i + j) ∧ l.get? j = some x ∧
        ∀ k < j, l.get? k ≠ some x) := by
  induction l with
  | nil => intro i; exact ⟨fun _ => rfl, fun hmem => absurd hmem (List.not_mem_nil x)⟩
  | cons y ys ih =>
    intro i
    by_cases hy : y = x
    · refine ⟨fun habs => absurd (hy ▸ List.mem_cons_self y ys) habs, fun _ => ?_⟩
      exact ⟨0, by simp [list_index_go, hy], by simp [hy], by omega⟩
    · constructor
      · intro habs
        have hx : x ∉ ys := fun hmem => habs (List.mem_cons_of_mem y hmem)
        simpa [list_index_go, hy] using (ih (i + 1)).1 hx
      · intro hmem
        have hx : x ∈ ys := by
          rcases List.mem_cons.mp hmem with h | h
          · exact absurd h.symm hy
          · exact h
        obtain ⟨j, hgo, hget, hbefore⟩ := (ih (i + 1)).2 hx
        refine ⟨j + 1, ?_, by simpa using hget, ?_⟩
        · simpa [list_index_go, hy, Nat.add_assoc, Nat.add_comm 1 j] using hgo
        · intro k hk
          cases k with
          | zero => simpa using fun habs => hy habs
          | succ k => simpa using hbefore k (by omega)

/-- C7: `header.index(name)` returns the zero-based position of the first
occurrence of a present field name, and fails (the Python call raises) when
the name is absent from the header. -/
theorem list_index_spec (l : List PyStr) (x : PyStr) :
    (x ∉ l → list_index l x = none) ∧
    (x ∈ l → ∃ j, list_index l x = some j ∧ l.get? j = some x ∧
      ∀ k < j, l.get? k ≠ some x) := by
  have h := list_index_go_spec x l 0
  simpa [list_index] using h

/-- Witness for C7 on the header `["Rk", "Gls"]`: a present name is found at
its position, an absent name fails. -/
theorem list_index_spec_witness :
    (∃ j, list_index [['R', 'k'], ['G', 'l', 's']] ['G', 'l', 's'] = some j ∧
      [['R', 'k'], ['G', 'l', 's']].get? j = some ['G', 'l', 's'] ∧
      ∀ k < j, [['R', 'k'], ['G', 'l', 's']].get? k ≠ some ['G', 'l', 's']) ∧
    list_index [['R', 'k'], ['G', 'l', 's']] ['P', 'o', 's'] = none :=
  ⟨(list_index_spec [['R', 'k'], ['G', 'l', 's']] ['G', 'l', 's']).2 (by decide),
    (list_index_spec [['R', 'k'], ['G', 'l', 's']] ['P', 'o', 's']).1 (by decide)⟩

/-- The conversion loop of `get_player_shooting_numbers` writes only to the
address of the slice copy: any other heap cell is untouched, on success and
on failure alike. -/
theorem psnLoop_get?_ne (addr q : ℕ) (hq : q ≠ addr) :
    ∀ (n i : ℕ) (h : Heap), ((psnLoop addr i n h).1).get? q = h.get? q := by
  intro n
  induction n with
  | zero => intro i h; rfl
  | succ n ih =>
    intro i h
    rw [psnLoop]
    split
    · rfl
    · split
      · rfl
      · rw [ih]
        simp only [List.get?_eq_getElem?]
        exact List.getElem?_set_ne fun habs => hq habs.symm

/-- C9: `get_player_shooting_numbers` never modifies the player row: the
conversions act on the fresh copy produced by the list slice, so the heap
cell of the input row is unchanged by the call — also when a conversion
fails partway (failure is atomic with respect to the row). -/
theorem get_player_shooting_numbers_frame (h : Heap) (p a b : ℕ) (hp : p < h.length) :
    ((get_player_shooting_numbers_run h p a b).1).get? p = h.get? p := by
  unfold get_player_shooting_numbers_run
  cases hg : h.get? p with
  | none => exact hg
  | some player =>
    simp only []
    rw [psnLoop_get?_ne h.length p (Nat.ne_of_lt hp) _ 0 (h ++ [pySlice player a b])]
    rw [List.get?_eq_getElem?, List.getElem?_append_left hp, ← List.get?_eq_getElem?]
    exact hg

/-- The fold seed is a lower bound of the running-maximum fold. -/
theorem le_foldl_maxGoals (g : Row → ℤ) (l : List Row) :
    ∀ b : ℤ, b ≤ l.foldl (fun m p => max m (g p)) b := by
  induction l with
  | nil => intro b; exact le_refl b
  | cons p rest ih =>
    intro b
    simpa using le_trans (le_max_left b (g p)) (ih (max b (g p)))

/-- Every goal count in the list is bounded by the running-maximum fold. -/
theorem mem_le_foldl_maxGoals (g : Row → ℤ) (l : List Row) :
    ∀ b : ℤ, ∀ p ∈ l, g p ≤ l.foldl (fun m q => max m (g q)) b := by
  induction l with
  | nil => intro b p hp; cases hp
  | cons q rest ih =>
    intro b p hp
    rcases List.mem_cons.mp hp with h | h
    · subst h
      simpa using le_trans (le_max_right b (g p)) (le_foldl_maxGoals g rest (max b (g p)))
    · simpa using ih (max b (g q)) p h

/-- The running-maximum fold is the seed or is attained by a list element. -/
theorem foldl_maxGoals_cases (g : Row → ℤ) (l : List Row) :
    ∀ b : ℤ, l.foldl (fun m q => max m (g q)) b = b ∨
      ∃ p ∈ l, l.foldl (fun m q => max m (g q)) b = g p := by
  induction l with
  | nil => intro b; exact Or.inl rfl
  | cons q rest ih =>
    intro b
    rcases ih (max b (g q)) with h | ⟨p, hp, he⟩
    · rcases max_choice b (g q) with hm | hm
      · left; simpa [hm] using h
      · right; exact ⟨q, List.mem_cons_self q rest, by simpa [hm] using h⟩
    · right; exact ⟨p, List.mem_cons_of_mem q hp, by simpa using he⟩

/-- Loop invariant of `get_top_scorer`: from a non-negative running maximum
`high`, if some later goal count beats `high` the accumulator is discarded
and exactly the rows attaining the final maximum are returned; if none does,
the accumulator is kept and extended with the rows that tie a positive
`high`. -/
theorem get_top_scorer_go_spec (gls_idx : ℕ) (g : Row → ℤ) (l : List Row) :
    ∀ (acc : List Row) (high : ℤ), 0 ≤ high →
      (∀ p ∈ l, pyIntAt p gls_idx = some (g p)) →
      (l.foldl (fun m q => max m (g q)) high > high →
        get_top_scorer_go gls_idx l acc high =
          some (l.filter fun p => decide (g p = l.foldl (fun m q => max m (g q)) high ∧
            0 < l.foldl (fun m q => max m (g q)) high))) ∧
      (l.foldl (fun m q => max m (g q)) high = high →
        get_top_scorer_go gls_idx l acc high =
          some (acc ++ l.filter fun p => decide (g p = l.foldl (fun m q => max m (g q)) high ∧
            0 < l.foldl (fun m q => max m (g q)) high))) := by
  induction l with
  | nil =>
    intro acc high h0 _
    exact ⟨fun habs => absurd habs (by simp), fun _ => by simp [get_top_scorer_go]⟩
  | cons p rest ih =>
    intro acc high h0 hall
    have hp : pyIntAt p gls_idx = some (g p) := hall p (List.mem_cons_self p rest)
    have hrest : ∀ q ∈ rest, pyIntAt q gls_idx = some (g q) :=
      fun q hq => hall q (List.mem_cons_of_mem p hq)
    by_cases hgt : g p > high ∧ g p > 0
    · have hseed : max high (g p) = g p := max_eq_right (le_of_lt hgt.1)
      have hF : g p ≤ rest.foldl (fun m q => max m (g q)) (g p) :=
        le_foldl_maxGoals g rest (g p)
      have hgo : get_top_scorer_go gls_idx (p :: rest) acc high =
          get_top_scorer_go gls_idx rest [p] (g p) := by
        rw [get_top_scorer_go, hp]
        dsimp only
        rw [if_pos hgt]
      constructor
      · intro _
        simp only [List.foldl_cons, hseed]
        rcases eq_or_lt_of_le hF with hFe | hFlt
        · rw [hgo, ((ih [p] (g p) (le_of_lt hgt.2) hrest).2 hFe.symm),
            List.filter_cons_of_pos (by simp only [decide_eq_true_eq]; omega)]
          simp
        · rw [hgo, ((ih [p] (g p) (le_of_lt hgt.2) hrest).1 hFlt),
            List.filter_cons_of_neg (by simp only [decide_eq_true_eq]; omega)]
      · intro habs
        simp only [List.foldl_cons, hseed] at habs
        omega
    · by_cases heq : g p = high ∧ g p > 0
      · have hle : g p ≤ high := le_of_eq heq.1
        have hseed : max high (g p) = high := max_eq_left hle
        have hgo : get_top_scorer_go gls_idx (p :: rest) acc high =
            get_top_scorer_go gls_idx rest (acc ++ [p]) high := by
          rw [get_top_scorer_go, hp]
          dsimp only
          rw [if_neg hgt, if_pos heq]
        constructor
        · intro hbeats
          simp only [List.foldl_cons, hseed] at hbeats ⊢
          rw [hgo, ((ih (acc ++ [p]) high h0 hrest).1 hbeats),
            List.filter_cons_of_neg (by simp only [decide_eq_true_eq]; omega)]
        · intro hstay
          simp only [List.foldl_cons, hseed] at hstay ⊢
          rw [hgo, ((ih (acc ++ [p]) high h0 hrest).2 hstay),
            List.filter_cons_of_pos (by simp only [decide_eq_true_eq]; omega)]
          simp
      · have hle : g p ≤ high := by
          by_contra habs
          push_neg at habs
          exact hgt ⟨habs, by omega⟩
        have hseed : max high (g p) = high := max_eq_left hle
        have hgo : get_top_scorer_go gls_idx (p :: rest) acc high =
            get_top_scorer_go gls_idx rest acc high := by
          rw [get_top_scorer_go, hp]
          dsimp only
          rw [if_neg hgt, if_neg heq]
        have hne : ¬ (g p = high ∧ 0 < high) := by
          intro habs
          exact heq ⟨habs.1, by omega⟩
        constructor
        · intro hbeats
          simp only [List.foldl_cons, hseed] at hbeats ⊢
          rw [hgo, ((ih acc high h0 hrest).1 hbeats),
            List.filter_cons_of_neg (by simp only [decide_eq_true_eq]; omega)]
        · intro hstay
          simp only [List.foldl_cons, hseed] at hstay ⊢
          rw [hgo, ((ih acc high h0 hrest).2 hstay),
            List.filter_cons_of_neg ?_]
          simp only [decide_eq_true_eq, hstay]
          omega

/-- C1: on rows whose goal fields all parse as integers, `get_top_scorer`
returns, in input order, exactly the rows whose goal count equals the
maximum when that maximum is positive, and returns the empty list when no
goal count is positive.  The last two conjuncts identify `maxGoals` as the
maximum of the goal counts. -/
theorem get_top_scorer_spec (players : List Row) (gls_idx : ℕ) (g : Row → ℤ)
    (h : ∀ p ∈ players, pyIntAt p gls_idx = some (g p)) :
    get_top_scorer players gls_idx =
      some (if 0 < maxGoals g players
        then players.filter fun p => decide (g p = maxGoals g players)
        else []) ∧
    (∀ p ∈ players, g p ≤ maxGoals g players) ∧
    (0 < maxGoals g players → ∃ p ∈ players, g p = maxGoals g players) := by
  refine ⟨?_, mem_le_foldl_maxGoals g players 0, fun hpos => ?_⟩
  · have hspec := get_top_scorer_go_spec gls_idx g players [] 0 (le_refl 0) h
    rw [get_top_scorer]
    by_cases hM : 0 < maxGoals g players
    · have hgt : players.foldl (fun m q => max m (g q)) 0 > 0 := hM
      rw [hspec.1 hgt, if_pos hM]
      congr 1
      apply List.filter_congr
      intro p _
      simp only [decide_eq_decide, maxGoals]
      constructor
      · intro ha
        exact ha.1
      · intro ha
        exact ⟨ha, hgt⟩
    · have hM0 : players.foldl (fun m q => max m (g q)) 0 = 0 := by
        have hge := le_foldl_maxGoals g players 0
        have : ¬ (0 : ℤ) < players.foldl (fun m q => max m (g q)) 0 := hM
        omega
      rw [hspec.2 hM0, if_neg hM]
      congr 1
      rw [List.nil_append]
      apply List.filter_eq_nil_iff.mpr
      intro p _
      simp only [decide_eq_true_eq, not_and]
      intro _
      rw [hM0]
      omega
  · rcases foldl_maxGoals_cases g players 0 with hc | hc
    · rw [maxGoals] at hpos
      omega
    · obtain ⟨p, hp, he⟩ := hc
      exact ⟨p, hp, he.symm⟩

/-- Witness for C1 on goal counts `[0, 3, 5, 5, 2]`: exactly the two rows
with count `5` are returned, in order; all-zero counts give the empty
list. -/
theorem get_top_scorer_spec_witness :
    get_top_scorer [[['0']], [['3']], [['5']], [['5']], [['2']]] 0 =
      some (if 0 < maxGoals (fun p => (pyIntAt p 0).getD 0)
          [[['0']], [['3']], [['5']], [['5']], [['2']]]
        then ([[['0']], [['3']], [['5']], [['5']], [['2']]] : List Row).filter
          fun p => decide ((pyIntAt p 0).getD 0 = maxGoals (fun p => (pyIntAt p 0).getD 0)
            [[['0']], [['3']], [['5']], [['5']], [['2']]])
        else []) ∧
    get_top_scorer [[['0']], [['3']], [['5']], [['5']], [['2']]] 0 = some [[['5']], [['5']]] ∧
    get_top_scorer [[['0']], [['0']]] 0 = some [] :=
  ⟨(get_top_scorer_spec [[['0']], [['3']], [['5']], [['5']], [['2']]] 0
      (fun p => (pyIntAt p 0).getD 0) (by decide)).1, by decide, by decide⟩

/-- The accumulating loop of `get_team_shooting_numbers` computes the
accumulator plus the componentwise sum of the players' triples. -/
theorem get_team_shooting_numbers_go_spec (a b : ℕ) (tf : Row → ℤ × ℤ × ℤ) (l : List Row) :
    ∀ acc : ℤ × ℤ × ℤ, (∀ p ∈ l, playerTriple p a b = some (tf p)) →
      get_team_shooting_numbers_go a b l acc = some (acc + (l.map tf).sum) := by
  induction l with
  | nil =>
    intro acc _
    simp [get_team_shooting_numbers_go]
  | cons p rest ih =>
    intro acc hall
    obtain ⟨gc, sc, tc⟩ := acc
    have hp := hall p (List.mem_cons_self p rest)
    rcases htf : tf p with ⟨g, s, t⟩
    rw [htf] at hp
    rw [get_team_shooting_numbers_go, hp]
    dsimp only
    rw [ih (gc + g, sc + s, tc + t) (fun q hq => hall q (List.mem_cons_of_mem p hq))]
    simp only [List.map_cons, List.sum_cons, htf]
    rcases (List.map tf rest).sum with ⟨u, v, w⟩
    simp [Prod.mk_add_mk, add_assoc]

/-- C6: on a group whose rows all parse, `get_team_shooting_numbers` equals
the componentwise sum of the players' shooting triples, and its result is
invariant under any permutation of the input rows. -/
theorem get_team_shooting_numbers_spec (team team' : List Row) (a b : ℕ)
    (tf : Row → ℤ × ℤ × ℤ)
    (hall : ∀ p ∈ team, playerTriple p a b = some (tf p))
    (hperm : team'.Perm team) :
    get_team_shooting_numbers team a b = some ((team.map tf).sum) ∧
    get_team_shooting_numbers team' a b = get_team_shooting_numbers team a b := by
  have hz : ((0, 0, 0) : ℤ × ℤ × ℤ) = 0 := rfl
  have h1 : get_team_shooting_numbers team a b = some ((team.map tf).sum) := by
    rw [get_team_shooting_numbers,
      get_team_shooting_numbers_go_spec a b tf team (0, 0, 0) hall, hz, zero_add]
  have hall' : ∀ p ∈ team', playerTriple p a b = some (tf p) :=
    fun p hp => hall p (hperm.subset hp)
  have h2 : get_team_shooting_numbers team' a b = some ((team'.map tf).sum) := by
    rw [get_team_shooting_numbers,
      get_team_shooting_numbers_go_spec a b tf team' (0, 0, 0) hall', hz, zero_add]
  refine ⟨h1, ?_⟩
  rw [h1, h2, List.Perm.sum_eq (hperm.map tf)]

/-- Witness for C6 on a two-row team and its transposition. -/
theorem get_team_shooting_numbers_spec_witness :
    get_team_shooting_numbers [[['1'], ['1', '0'], ['4']], [['3'], ['5'], ['2']]] 0 3 =
      some ((([[['1'], ['1', '0'], ['4']], [['3'], ['5'], ['2']]] : List Row).map
        fun p => (playerTriple p 0 3).getD (0, 0, 0)).sum) ∧
    get_team_shooting_numbers [[['3'], ['5'], ['2']], [['1'], ['1', '0'], ['4']]] 0 3 =
      get_team_shooting_numbers [[['1'], ['1', '0'], ['4']], [['3'], ['5'], ['2']]] 0 3 :=
  get_team_shooting_numbers_spec [[['1'], ['1', '0'], ['4']], [['3'], ['5'], ['2']]]
    [[['3'], ['5'], ['2']], [['1'], ['1', '0'], ['4']]] 0 3
    (fun p => (playerTriple p 0 3).getD (0, 0, 0)) (by decide)
    (List.Perm.swap [['1'], ['1', '0'], ['4']] [['3'], ['5'], ['2']] [])

/-- Python `insert` always grows the list by one (the index clamps). -/
theorem pyListInsert_length (l : List α) (i : ℕ) (x : α) :
    (pyListInsert l i x).length = l.length + 1 := by
  rw [pyListInsert]
  exact List.length_insertIdx _ _ (min_le_right i l.length)

/-- A successful Python index assignment preserves the list length. -/
theorem pySetIdx_length (l l' : List α) (i : ℕ) (x : α)
    (h : pySetIdx l i x = some l') : l'.length = l.length := by
  rw [pySetIdx] at h
  split_ifs at h with hi
  have he := Option.some.inj h
  rw [← he, List.length_set]

/-- The challenge-3 row transformation grows a row by exactly one field. -/
theorem challenge3_row_length (pos_idx squad_idx : ℕ) (row row' : Obj)
    (h : challenge3_row pos_idx squad_idx row = some row') :
    row'.length = row.length + 1 := by
  rw [challenge3_row] at h
  rcases Option.bind_eq_some.mp h with ⟨pos, hpos, h2⟩
  dsimp only at h2
  rcases Option.bind_eq_some.mp h2 with ⟨sq, hsq, h3⟩
  have he := pySetIdx_length _ _ _ _ h3
  rw [he, pyListInsert_length, List.length_set]

/-- The challenge-10 row transformation grows a row by exactly two fields. -/
theorem challenge10_row_length (a b : ℕ) (row row' : Obj)
    (h : challenge10_row a b row = some row') :
    row'.length = row.length + 2 := by
  rw [challenge10_row] at h
  rcases Option.bind_eq_some.mp h with ⟨gst, hgst, h2⟩
  have he := Option.some.inj h2
  rw [← he]
  simp

/-- C5: the two arity-changing stages of the pipeline keep every row in
lockstep with the header: challenge 3 inserts the country-code field at the
same index `squad_idx` in the header and in the row, challenge 10 appends
the two rate columns exactly when the two names are appended to the header,
so after each stage the row and the header have equal length. -/
theorem pipeline_arity (headers : List PyStr) (row row3 row10 : Obj)
    (pos_idx squad_idx a b : ℕ)
    (hlen : row.length = headers.length)
    (h3 : challenge3_row pos_idx squad_idx row = some row3)
    (h10 : challenge10_row a b row3 = some row10) :
    row3.length = (challenge3_header headers squad_idx).length ∧
    row10.length = (challenge10_header (challenge3_header headers squad_idx)).length := by
  have e3 : row3.length = row.length + 1 := challenge3_row_length _ _ _ _ h3
  have e10 : row10.length = row3.length + 2 := challenge10_row_length _ _ _ _ h10
  have eh3 : (challenge3_header headers squad_idx).length = headers.length + 1 := by
    rw [challenge3_header, pyListInsert_length]
  have eh10 : (challenge10_header (challenge3_header headers squad_idx)).length =
      (challenge3_header headers squad_idx).length + 2 := by
    simp [challenge10_header]
  omega

/-- Witness for C5 on a five-column row (`Pos`, `Squad`, `Gls`, `Sh`,
`SoT`). -/
theorem pipeline_arity_witness :
    ([PyVal.vstr ['M', 'F', '|', 'D', 'F'], PyVal.vstr ['N', 'G'], PyVal.vstr ['N'],
        PyVal.vstr ['1'], PyVal.vstr ['1', '0'], PyVal.vstr ['4']] : Obj).length =
      (challenge3_header [['P', 'o', 's'], ['S', 'q', 'u', 'a', 'd'], ['G', 'l', 's'],
        ['S', 'h'], ['S', 'o', 'T']] 1).length ∧
    (([PyVal.vstr ['M', 'F', '|', 'D', 'F'], PyVal.vstr ['N', 'G'], PyVal.vstr ['N'],
        PyVal.vstr ['1'], PyVal.vstr ['1', '0'], PyVal.vstr ['4']] : Obj) ++
      [PyVal.vrat (calculate_shot_conversion_rate 1 10 3),
        PyVal.vrat (calculate_shot_conversion_rate 1 4 3)]).length =
      (challenge10_header (challenge3_header [['P', 'o', 's'], ['S', 'q', 'u', 'a', 'd'],
        ['G', 'l', 's'], ['S', 'h'], ['S', 'o', 'T']] 1)).length :=
  pipeline_arity [['P', 'o', 's'], ['S', 'q', 'u', 'a', 'd'], ['G', 'l', 's'], ['S', 'h'],
    ['S', 'o', 'T']]
    [PyVal.vstr ['M', 'F', ',', 'D', 'F'], PyVal.vstr ['n', 'g', ' ', 'N'],
      PyVal.vstr ['1'], PyVal.vstr ['1', '0'], PyVal.vstr ['4']]
    [PyVal.vstr ['M', 'F', '|', 'D', 'F'], PyVal.vstr ['N', 'G'], PyVal.vstr ['N'],
      PyVal.vstr ['1'], PyVal.vstr ['1', '0'], PyVal.vstr ['4']]
    ([PyVal.vstr ['M', 'F', '|', 'D', 'F'], PyVal.vstr ['N', 'G'], PyVal.vstr ['N'],
      PyVal.vstr ['1'], PyVal.vstr ['1', '0'], PyVal.vstr ['4']] ++
      [PyVal.vrat (calculate_shot_conversion_rate 1 10 3),
        PyVal.vrat (calculate_shot_conversion_rate 1 4 3)])
    0 1 3 6 (by decide) (by decide) (by rfl)

/-- The challenge-12.4 comparison is total. -/
theorem rankLE_total (x y : TeamRecord) : rankLE x y || rankLE y x := by
  simp only [rankLE, Bool.or_eq_true, decide_eq_true_eq]
  rcases lt_trichotomy (sortKey x).1 (sortKey y).1 with h | h | h
  · exact Or.inl (Or.inl h)
  · rcases le_total (sortKey x).2 (sortKey y).2 with h2 | h2
    · exact Or.inl (Or.inr ⟨h, h2⟩)
    · exact Or.inr (Or.inr ⟨h.symm, h2⟩)
  · exact Or.inr (Or.inl h)

/-- The challenge-12.4 comparison is transitive. -/
theorem rankLE_trans (x y z : TeamRecord) (hxy : rankLE x y) (hyz : rankLE y z) :
    rankLE x z := by
  simp only [rankLE, decide_eq_true_eq] at hxy hyz ⊢
  rcases hxy with h | ⟨he, hc⟩ <;> rcases hyz with h2 | ⟨he2, hc2⟩
  · exact Or.inl (lt_trans h h2)
  · exact Or.inl (he2 ▸ h)
  · exact Or.inl (he ▸ h2)
  · exact Or.inr ⟨he.trans he2, le_trans hc hc2⟩

/-- C3: `rankTeams` returns a permutation of its input, ordered descending
by shots-on-target conversion rate with ties broken ascending by country
name; it is stable (rows sharing a full sort key keep their input order) and
idempotent on its own output. -/
theorem rankTeams_spec (ts : List TeamRecord) :
    (rankTeams ts).Perm ts ∧
    (rankTeams ts).Pairwise (fun x y =>
      y.shots_on_target_conv_rate < x.shots_on_target_conv_rate ∨
      (x.shots_on_target_conv_rate = y.shots_on_target_conv_rate ∧ x.country ≤ y.country)) ∧
    rankTeams (rankTeams ts) = rankTeams ts ∧
    ∀ k : ℚ × String, ((rankTeams ts).filter fun x => decide (sortKey x = k)) =
      ts.filter fun x => decide (sortKey x = k) := by
  have hsorted : (ts.mergeSort rankLE).Pairwise fun a b => rankLE a b = true :=
    List.sorted_mergeSort rankLE_trans rankLE_total ts
  refine ⟨List.mergeSort_perm ts rankLE, ?_, List.mergeSort_of_sorted hsorted, ?_⟩
  · refine List.Pairwise.imp ?_ hsorted
    intro a b hab
    simp only [rankLE, decide_eq_true_eq, sortKey] at hab
    rcases hab with h | ⟨he, hc⟩
    · exact Or.inl (neg_lt_neg_iff.mp h)
    · exact Or.inr ⟨neg_inj.mp he, hc⟩
  · intro k
    have hpairk : (ts.filter fun x => decide (sortKey x = k)).Pairwise
        fun a b => rankLE a b = true := by
      apply List.pairwise_of_forall_mem_list
      intro x hx y hy
      have hxk := (List.mem_filter.mp hx).2
      have hyk := (List.mem_filter.mp hy).2
      simp only [decide_eq_true_eq] at hxk hyk
      simp only [rankLE, decide_eq_true_eq]
      exact Or.inr ⟨by rw [hxk, hyk], by simp [hxk, hyk]⟩
    have hsub : List.Sublist (ts.filter fun x => decide (sortKey x = k)) ts :=
      List.filter_sublist ts
    have hsl := List.sublist_mergeSort rankLE_trans rankLE_total hpairk hsub
    have hself : ((ts.filter fun x => decide (sortKey x = k)).filter
        fun x => decide (sortKey x = k)) = ts.filter fun x => decide (sortKey x = k) :=
      List.filter_eq_self.mpr fun a ha => (List.mem_filter.mp ha).2
    have hsl2 : List.Sublist (ts.filter fun x => decide (sortKey x = k))
        ((ts.mergeSort rankLE).filter fun x => decide (sortKey x = k)) := by
      have hf := hsl.filter fun x => decide (sortKey x = k)
      rw [hself] at hf
      exact hf
    have hlen : ((ts.mergeSort rankLE).filter fun x => decide (sortKey x = k)).length =
        (ts.filter fun x => decide (sortKey x = k)).length :=
      ((List.mergeSort_perm ts rankLE).filter _).length_eq
    exact (hsl2.eq_of_length hlen.symm).symm

/-- Witness for C9: a parseable row and a row with a non-integer field; in
both cases the player's heap cell is untouched. -/
theorem get_player_shooting_numbers_frame_witness :
    ((get_player_shooting_numbers_run
        [[PyVal.vstr ['1'], PyVal.vstr ['1', '0'], PyVal.vstr ['4']]] 0 0 3).1).get? 0 =
      ([[PyVal.vstr ['1'], PyVal.vstr ['1', '0'], PyVal.vstr ['4']]] : Heap).get? 0 ∧
    ((get_player_shooting_numbers_run [[PyVal.vstr ['x'], PyVal.vstr ['4']]] 0 0 2).1).get? 0 =
      ([[PyVal.vstr ['x'], PyVal.vstr ['4']]] : Heap).get? 0 :=
  ⟨get_player_shooting_numbers_frame
      [[PyVal.vstr ['1'], PyVal.vstr ['1', '0'], PyVal.vstr ['4']]] 0 0 3 (by decide),
    get_player_shooting_numbers_frame
      [[PyVal.vstr ['x'], PyVal.vstr ['4']]] 0 0 2 (by decide)⟩
